import Mathlib

set_option maxHeartbeats 2000000
set_option maxRecDepth 10000

/-!
Shallow embedding of the JD79661 four-color e-paper display driver
(`src/src/lib.rs`): the `DisplayBuffer` three-bitplane frame buffer with its
pixel-draw operation, the wire-format transposition performed by
`update_frames`, and the SPI/GPIO command protocol of the driver
(`new`, `command`, `wait_busy`, `update_frames`, `display_frame`) over an
explicit mock harness that records pin/SPI events and answers SPI writes and
busy-pin polls through oracles.
-/

/-- Canvas width in pixels (`pub const WIDTH: usize = 250`). -/
def WIDTH : Nat := 250

/-- Canvas height in pixels (`pub const HEIGHT: usize = 122`). -/
def HEIGHT : Nat := 122

/-- Plane size in bytes (`(WIDTH * HEIGHT).div_ceil(8)`). -/
def BUF_SIZE : Nat := (WIDTH * HEIGHT + 7) / 8

/-- The three packed bitplanes of the frame buffer.  Each plane is modelled as
a function from byte index to byte value; the Rust code uses `[u8; BUF_SIZE]`
arrays, so in theorems that need the `u8` range we carry `u8Planes` below. -/
structure DisplayBuffer where
  bw : Nat → Nat
  red : Nat → Nat
  yellow : Nat → Nat

/-- `DisplayBuffer::new`: all three planes filled with `0xFF`. -/
def DisplayBuffer.new : DisplayBuffer :=
  ⟨fun _ => 0xFF, fun _ => 0xFF, fun _ => 0xFF⟩

/-- `DisplayBuffer::clear`: `fill(0xFF)` on all three planes. -/
def DisplayBuffer.clear (_ : DisplayBuffer) : DisplayBuffer :=
  ⟨fun _ => 0xFF, fun _ => 0xFF, fun _ => 0xFF⟩

/-- The four drawable colors (`enum QuadColor`). -/
inductive QuadColor where
  | Black
  | White
  | Red
  | Yellow
deriving DecidableEq

/-- `b |= 1 << bit` on a byte. -/
def setB (bit b : Nat) : Nat := b ||| (1 <<< bit)

/-- `b &= !(1 << bit)` on a byte (`!` on `u8` is xor with `0xFF`). -/
def clrB (bit b : Nat) : Nat := b &&& (255 ^^^ (1 <<< bit))

/-- `(b >> i) & 1`. -/
def getBit (b i : Nat) : Nat := (b >>> i) &&& 1

/-- All plane bytes are in `u8` range, as the Rust `[u8; BUF_SIZE]` arrays
guarantee by construction. -/
def u8Planes (d : DisplayBuffer) : Prop :=
  ∀ i, d.bw i < 256 ∧ d.red i < 256 ∧ d.yellow i < 256

/-- Body of `DrawTarget::draw_iter` for a single pixel: bounds check with
`i32` coordinates, `idx = (y*WIDTH + x)/8`, `bit = 7 - x%8`, then set all
three plane bits and clear exactly the bit of the drawn color's plane. -/
def drawPixel (d : DisplayBuffer) (px py : Int) (c : QuadColor) : DisplayBuffer :=
  if 0 ≤ px ∧ px < 250 ∧ 0 ≤ py ∧ py < 122 then
    let x := px.toNat
    let y := py.toNat
    let idx := (y * WIDTH + x) / 8
    let bit := 7 - x % 8
    { bw := fun i => if i = idx then
        (match c with
          | QuadColor.Black => clrB bit (setB bit (d.bw i))
          | _ => setB bit (d.bw i))
        else d.bw i
      red := fun i => if i = idx then
        (match c with
          | QuadColor.Red => clrB bit (setB bit (d.red i))
          | _ => setB bit (d.red i))
        else d.red i
      yellow := fun i => if i = idx then
        (match c with
          | QuadColor.Yellow => clrB bit (setB bit (d.yellow i))
          | _ => setB bit (d.yellow i))
        else d.yellow i }
  else d

/-- `draw_iter`: fold the single-pixel rule over the pixel sequence.  The Rust
error type is `Infallible`, so the operation always succeeds and is modelled
as a total function. -/
def draw_iter (d : DisplayBuffer) (ps : List (Int × Int × QuadColor)) : DisplayBuffer :=
  ps.foldl (fun acc p => drawPixel acc p.1 p.2.1 p.2.2) d

/-- Bit of plane `p` at buffer coordinate `(x, y)`, read exactly the way both
`draw_iter` and `update_frames` address the planes. -/
def planeBit (p : Nat → Nat) (x y : Nat) : Nat :=
  getBit (p ((y * WIDTH + x) / 8)) (7 - x % 8)

/-- Number of planes whose bit at `(x, y)` is clear (active). -/
def clearCount (d : DisplayBuffer) (x y : Nat) : Nat :=
  (if planeBit d.bw x y = 0 then 1 else 0) +
    (if planeBit d.red x y = 0 then 1 else 0) +
    (if planeBit d.yellow x y = 0 then 1 else 0)

/-- Color exclusivity: at every in-bounds coordinate at most one plane bit is
clear. -/
def exclusive (d : DisplayBuffer) : Prop :=
  ∀ x y, x < WIDTH → y < HEIGHT → clearCount d x y ≤ 1

/-- The 2-bit wire color code of one sub-column slot of `update_frames`:
guard `ry < 250 && rx < 122`, coordinates `x = ry`, `y = 121 - rx`, plane
reads `(plane[idx] >> bit) & 1`, mapping red-clear → 3, yellow-clear → 2,
bw-clear → 0, otherwise 1; out-of-range slots get the literal padding value
`1` from the `else` branch. -/
def colorCode (d : DisplayBuffer) (ry rx : Nat) : Nat :=
  if ry < 250 ∧ rx < 122 then
    let x := ry
    let y := 121 - rx
    let idx := (y * WIDTH + x) / 8
    let bit := 7 - x % 8
    let bw := (d.bw idx >>> bit) &&& 1
    let red := (d.red idx >>> bit) &&& 1
    let yellow := (d.yellow idx >>> bit) &&& 1
    if red = 0 then 3
    else if yellow = 0 then 2
    else if bw = 0 then 0
    else 1
  else 1

/-- One output byte of `update_frames`: four consecutive 2-bit codes packed
MSB-first, `byte = (byte << 2) | code` on a `u8`, repeated four times. -/
def packByte (d : DisplayBuffer) (ry blockBase : Nat) : Nat :=
  (List.range 4).foldl
    (fun byte i => ((byte <<< 2) ||| colorCode d ry (blockBase + i)) % 256) 0

/-- The full data-byte sequence of `update_frames`: outer loop `ly_as_rx` in
`0..250`, inner loop over block bases `0, 4, ..., 124`. -/
def frameBytes (d : DisplayBuffer) : List Nat :=
  (List.range 250).flatMap fun ry =>
    (List.range 32).map fun blk => packByte d ry (4 * blk)

/-- Pin/SPI events recorded by the mock harness, in the order the driver
performs them. -/
inductive Ev : Type where
  | dc : Bool → Ev
  | cs : Bool → Ev
  | rst : Bool → Ev
  | delayMs : Nat → Ev
  | write : List Nat → Ev
deriving DecidableEq

/-- Mock SPI/GPIO harness: `spiResp n` answers the `n`-th SPI write,
`busyResp n` answers the `n`-th `busy.is_low()` poll, `trace` records events
most-recent-first. -/
structure Harness (E : Type) : Type where
  spiResp : Nat → Except E Unit
  busyResp : Nat → Except E Bool
  nWrites : Nat
  nPolls : Nat
  trace : List Ev

/-- Record one pin event. -/
def emit {E : Type} (h : Harness E) (ev : Ev) : Harness E :=
  { h with trace := ev :: h.trace }

/-- `spi.write(bytes)`: record the attempt and answer from the oracle. -/
def spiWrite {E : Type} (h : Harness E) (bs : List Nat) : Harness E × Except E Unit :=
  ({ h with nWrites := h.nWrites + 1, trace := Ev.write bs :: h.trace },
    h.spiResp h.nWrites)

/-- `busy.is_low()`: answer from the oracle, counting polls. -/
def pollBusy {E : Type} (h : Harness E) : Harness E × Except E Bool :=
  ({ h with nPolls := h.nPolls + 1 }, h.busyResp h.nPolls)

/-- `Result::unwrap_or(false)` as used on the busy-pin read. -/
def unwrapOr {E : Type} (r : Except E Bool) : Bool :=
  match r with
  | Except.ok b => b
  | Except.error _ => false

/-- The `?` operator on a fallible driver step: propagate the error with the
harness state at the failure point, or continue. -/
def bindE {E : Type} (step : Harness E × Except E Unit)
    (k : Harness E → Harness E × Except E Unit) : Harness E × Except E Unit :=
  match step.2 with
  | Except.error e => (step.1, Except.error e)
  | Except.ok _ => k step.1

/-- The `?` operator inside an operation that may also diverge (modelled by
`Option`): an SPI error yields `some (h, error)`, success continues. -/
def bindEO {E : Type} (step : Harness E × Except E Unit)
    (k : Harness E → Option (Harness E × Except E Unit)) :
    Option (Harness E × Except E Unit) :=
  match step.2 with
  | Except.error e => some (step.1, Except.error e)
  | Except.ok _ => k step.1

/-- Sequencing after a busy-wait: `none` (the wait never ended) stays `none`. -/
def bindW {E : Type} (step : Option (Harness E))
    (k : Harness E → Option (Harness E × Except E Unit)) :
    Option (Harness E × Except E Unit) :=
  match step with
  | none => none
  | some h => k h

namespace Jd79661

/-- `Jd79661::command`: DC low, CS low, write the single opcode byte, CS high;
then, when a payload is present, DC high, CS low, write the payload bytes, CS
high.  A failing `spi.write` propagates immediately via `?`, skipping the
trailing CS-high of that phase. -/
def command {E : Type} (h : Harness E) (cmd : Nat) (data : List Nat) :
    Harness E × Except E Unit :=
  let h := emit h (Ev.dc false)
  let h := emit h (Ev.cs false)
  bindE (spiWrite h [cmd]) fun h =>
    let h := emit h (Ev.cs true)
    if data.isEmpty then (h, Except.ok ()) else
      let h := emit h (Ev.dc true)
      let h := emit h (Ev.cs false)
      bindE (spiWrite h data) fun h => (emit h (Ev.cs true), Except.ok ())

/-- `Jd79661::wait_busy`: `while busy.is_low().unwrap_or(false)` with a 1 ms
delay per iteration.  The Rust loop has no bound; the embedding adds explicit
fuel and returns `none` when the loop has not exited within `fuel` polls, so
an unbounded run is `∀ fuel, wait_busy h fuel = none`. -/
def wait_busy {E : Type} (h : Harness E) : Nat → Option (Harness E)
  | 0 => none
  | fuel + 1 =>
    let p := pollBusy h
    if unwrapOr p.2 then wait_busy (emit p.1 (Ev.delayMs 1)) fuel
    else some p.1

/-- The fixed configuration command table sent between SWRESET and power-on,
verbatim from `Jd79661::new`. -/
def initSequence : List (Nat × List Nat) :=
  [(0x4D, [0x78]),
   (0x00, [0x8F, 0x29]),
   (0x01, [0x07, 0x00]),
   (0x03, [0x10, 0x54, 0x44]),
   (0x06, [0x05, 0x00, 0x3F, 0x0A, 0x25, 0x12, 0x1A]),
   (0x50, [0x37]),
   (0x60, [0x02, 0x02, 0x02]),
   (0x61, [0x00, 0x80, 0x00, 0xFA]),
   (0xE7, [0x1C]),
   (0xE3, [0x22]),
   (0xB4, [0xD0]),
   (0xB5, [0x03]),
   (0xE9, [0x01]),
   (0x30, [0x08])]

/-- Run a list of `command` calls in order, short-circuiting on the first SPI
error exactly as the chain of `?` operators does. -/
def runCommands {E : Type} (h : Harness E) :
    List (Nat × List Nat) → Harness E × Except E Unit
  | [] => (h, Except.ok ())
  | c :: rest => bindE (command h c.1 c.2) fun h => runCommands h rest

/-- `Jd79661::new`: reset pulse (10 ms low, 10 ms high), busy-wait, SWRESET
(`0x01`, no payload), busy-wait, the fixed configuration table, power-on
(`0x04`, no payload), busy-wait.  `none` means a busy-wait never exited
within its fuel. -/
def new {E : Type} (h : Harness E) (fuel : Nat) :
    Option (Harness E × Except E Unit) :=
  let h := emit h (Ev.rst false)
  let h := emit h (Ev.delayMs 10)
  let h := emit h (Ev.rst true)
  let h := emit h (Ev.delayMs 10)
  bindW (wait_busy h fuel) fun h =>
  bindEO (command h 0x01 []) fun h =>
  bindW (wait_busy h fuel) fun h =>
  bindEO (runCommands h initSequence) fun h =>
  bindEO (command h 0x04 []) fun h =>
  bindW (wait_busy h fuel) fun h => some (h, Except.ok ())

/-- The bulk-transfer loop of `update_frames`: one `spi.write(&[byte])` per
data byte, short-circuiting on error via `?`. -/
def writeFrame {E : Type} (h : Harness E) : List Nat → Harness E × Except E Unit
  | [] => (h, Except.ok ())
  | b :: rest => bindE (spiWrite h [b]) fun h => writeFrame h rest

/-- `Jd79661::update_frames`: command `0x10`, DC high, CS low, the bulk data
transfer, CS high on success. -/
def update_frames {E : Type} (h : Harness E) (d : DisplayBuffer) :
    Harness E × Except E Unit :=
  bindE (command h 0x10 []) fun h =>
    let h := emit h (Ev.dc true)
    let h := emit h (Ev.cs false)
    bindE (writeFrame h (frameBytes d)) fun h => (emit h (Ev.cs true), Except.ok ())

/-- `Jd79661::display_frame`: command `0x12` (display refresh) then busy-wait. -/
def display_frame {E : Type} (h : Harness E) (fuel : Nat) :
    Option (Harness E × Except E Unit) :=
  bindEO (command h 0x12 []) fun h =>
  bindW (wait_busy h fuel) fun h => some (h, Except.ok ())

end Jd79661

/-- A harness whose SPI writes all succeed and whose busy line immediately
reads not-busy. -/
def mockOk : Harness Unit :=
  ⟨fun _ => Except.ok (), fun _ => Except.ok false, 0, 0, []⟩

/-- Parse a chronological event trace into the list of transmitted commands:
a single byte written while DC is low opens a new command, bytes written
while DC is high extend the payload of the most recent command. -/
def commandsOfAux : List Ev → Bool → List (Nat × List Nat) → List (Nat × List Nat)
  | [], _, acc => acc.reverse
  | Ev.dc b :: rest, _, acc => commandsOfAux rest b acc
  | Ev.write bs :: rest, dcHigh, acc =>
    if dcHigh then
      match acc with
      | [] => commandsOfAux rest dcHigh acc
      | c :: tail => commandsOfAux rest dcHigh ((c.1, c.2 ++ bs) :: tail)
    else
      match bs with
      | [c] => commandsOfAux rest dcHigh ((c, []) :: acc)
      | _ => commandsOfAux rest dcHigh acc
  | _ :: rest, dcHigh, acc => commandsOfAux rest dcHigh acc

/-- Commands of a chronological trace. -/
def commandsOf (evs : List Ev) : List (Nat × List Nat) :=
  commandsOfAux evs false []

/-- Total number of SPI writes a command list performs when every write
succeeds: one for the opcode plus one for a non-empty payload. -/
def writesOfCmd (c : Nat × List Nat) : Nat :=
  if c.2.isEmpty then 1 else 2

/-- Total writes of a command list. -/
def writesOfCmds (cs : List (Nat × List Nat)) : Nat :=
  (cs.map writesOfCmd).sum

/-- The buffer of C1/P6: all-clear except a single Black pixel drawn at
buffer coordinate `(x = 5, y = 10)`. -/
def singleBlackBuffer : DisplayBuffer :=
  draw_iter DisplayBuffer.new [((5 : Int), (10 : Int), QuadColor.Black)]

/-! ## Helper lemmas -/

theorem DisplayBuffer.ext2 {d1 d2 : DisplayBuffer} (h1 : d1.bw = d2.bw)
    (h2 : d1.red = d2.red) (h3 : d1.yellow = d2.yellow) : d1 = d2 := by
  cases d1
  cases d2
  simp_all

theorem getBit_eq (b i : Nat) : getBit b i = if b.testBit i then 1 else 0 := by
  rw [getBit, Nat.and_one_is_mod, Nat.shiftRight_eq_div_pow, Nat.testBit_to_div_mod]
  rcases Nat.mod_two_eq_zero_or_one (b / 2 ^ i) with h | h <;> simp [h]

theorem testBit_setB (k b j : Nat) :
    (setB k b).testBit j = (decide (j = k) || b.testBit j) := by
  rw [setB, Nat.one_shiftLeft, Nat.testBit_lor, Nat.testBit_two_pow]
  by_cases h : j = k
  · simp [h]
  · have h' : ¬k = j := fun hh => h hh.symm
    simp [h, h']

theorem testBit_clrB (k b j : Nat) (hk : k < 8) :
    (clrB k b).testBit j =
      if j = k then false else if j < 8 then b.testBit j else false := by
  have h255 : (255 : Nat) = 2 ^ 8 - 1 := by norm_num
  rw [clrB, Nat.one_shiftLeft, Nat.testBit_land, Nat.testBit_xor, h255,
    Nat.testBit_two_pow_sub_one, Nat.testBit_two_pow]
  by_cases h : j = k
  · subst h
    simp [hk]
  · have h' : ¬k = j := fun hh => h hh.symm
    by_cases h8 : j < 8 <;> simp [h, h', h8]

theorem getBit_setB (k b j : Nat) :
    getBit (setB k b) j = if j = k then 1 else getBit b j := by
  rw [getBit_eq, testBit_setB, getBit_eq]
  by_cases h : j = k <;> simp [h]

theorem getBit_clrB (k b j : Nat) (hk : k < 8) (hj : j < 8) :
    getBit (clrB k b) j = if j = k then 0 else getBit b j := by
  rw [getBit_eq, testBit_clrB k b j hk, getBit_eq]
  by_cases h : j = k <;> simp [h, hj]

theorem setB_setB (k b : Nat) : setB k (setB k b) = setB k b := by
  apply Nat.eq_of_testBit_eq
  intro j
  simp [testBit_setB]

theorem clrB_setB_setB (k b : Nat) : clrB k (setB k (setB k b)) = clrB k (setB k b) := by
  rw [setB_setB]

theorem setB_clrB_setB {k b : Nat} (hk : k < 8) (hb : b < 256) :
    setB k (clrB k (setB k b)) = setB k b := by
  apply Nat.eq_of_testBit_eq
  intro j
  by_cases h : j = k
  · simp [testBit_setB, testBit_clrB _ _ _ hk, h]
  · have h' : ¬k = j := fun hh => h hh.symm
    by_cases h8 : j < 8
    · simp [testBit_setB, testBit_clrB _ _ _ hk, h, h', h8]
    · have hbj : b < 2 ^ j := lt_of_lt_of_le hb (by
        calc (256 : Nat) = 2 ^ 8 := by norm_num
          _ ≤ 2 ^ j := Nat.pow_le_pow_right (by norm_num) (by omega))
      simp [testBit_setB, testBit_clrB _ _ _ hk, h, h', h8,
        Nat.testBit_eq_false_of_lt hbj]

theorem clrB_setB_clrB_setB {k : Nat} (b : Nat) (hk : k < 8) :
    clrB k (setB k (clrB k (setB k b))) = clrB k (setB k b) := by
  apply Nat.eq_of_testBit_eq
  intro j
  by_cases h : j = k
  · simp [testBit_setB, testBit_clrB _ _ _ hk, h]
  · have h' : ¬k = j := fun hh => h hh.symm
    by_cases h8 : j < 8 <;> simp [testBit_setB, testBit_clrB _ _ _ hk, h, h', h8]

/-! ## C2: padding code of out-of-range slots -/

/-- C2 counterexample: the claim says every out-of-range sub-column slot
(`rx ≥ 122`) encodes code `2` (Yellow); on the code the padding branch of
`update_frames` yields the literal `1`, so already the slot `(ly = 0,
rx = 122)` of a fresh buffer carries code `1`, not `2`. -/
theorem spec_C2_cex :
    colorCode DisplayBuffer.new 0 122 = 1 ∧ colorCode DisplayBuffer.new 0 122 ≠ 2 := by
  decide

/-- C2 (amended): for every DisplayBuffer, every 2-bit slot of the
`update_frames` output corresponding to an out-of-range sub-column
(`rx ≥ 122`, or a row `ry ≥ 250`) encodes code `1` — the value the
hardware-observed mapping assigns to White, labelled `Padding (Yellow?)` in
the source — regardless of the buffer's contents. -/
theorem spec_C2 (d : DisplayBuffer) (ry rx : Nat) (h : ¬(ry < 250 ∧ rx < 122)) :
    colorCode d ry rx = 1 := by
  rw [colorCode, if_neg h]

/-- C2 witness: the amended theorem applied at the fresh buffer and slot
`(ly = 0, rx = 122)`. -/
theorem spec_C2_witness : colorCode DisplayBuffer.new 0 122 = 1 :=
  spec_C2 DisplayBuffer.new 0 122 (by decide)

/-! ## C5: out-of-bounds draws are silent no-ops -/

/-- C5: drawing a pixel at `x = WIDTH`, `y = HEIGHT`, any larger coordinate,
or any negative coordinate leaves all three plane byte arrays byte-for-byte
unchanged.  The Rust error type of `draw_iter` is `Infallible`, so the
operation also always returns success — the embedding is a total function
into `DisplayBuffer`. -/
theorem spec_C5 (d : DisplayBuffer) (x y : Int) (c : QuadColor)
    (h : (250 : Int) ≤ x ∨ (122 : Int) ≤ y ∨ x < 0 ∨ y < 0) :
    drawPixel d x y c = d ∧ draw_iter d [(x, y, c)] = d ∧
      (drawPixel d x y c).bw = d.bw ∧ (drawPixel d x y c).red = d.red ∧
      (drawPixel d x y c).yellow = d.yellow := by
  have hg : ¬(0 ≤ x ∧ x < 250 ∧ 0 ≤ y ∧ y < 122) := by omega
  have hdp : drawPixel d x y c = d := by rw [drawPixel, if_neg hg]
  exact ⟨hdp, by simp [draw_iter, hdp], by rw [hdp], by rw [hdp], by rw [hdp]⟩

/-- C5 witness: the theorem applied at the fresh buffer with `x = WIDTH`. -/
theorem spec_C5_witness :
    drawPixel DisplayBuffer.new 250 0 QuadColor.Black = DisplayBuffer.new :=
  (spec_C5 DisplayBuffer.new 250 0 QuadColor.Black (Or.inl (by decide))).1

/-! ## C7: pixel draws are idempotent and last-write-wins -/

theorem u8Planes_new : u8Planes DisplayBuffer.new := by
  intro i
  refine ⟨?_, ?_, ?_⟩ <;> norm_num [DisplayBuffer.new]

theorem drawPixel_override (d : DisplayBuffer) (px py : Int) (c c2 : QuadColor)
    (hu : u8Planes d) :
    drawPixel (drawPixel d px py c2) px py c = drawPixel d px py c := by
  by_cases hg : 0 ≤ px ∧ px < 250 ∧ 0 ≤ py ∧ py < 122
  · have hk : 7 - px.toNat % 8 < 8 := by omega
    apply DisplayBuffer.ext2
    · funext i
      simp only [drawPixel, if_pos hg]
      by_cases hi : i = (py.toNat * WIDTH + px.toNat) / 8
      · have hb : d.bw ((py.toNat * WIDTH + px.toNat) / 8) < 256 := (hu _).1
        cases c <;> cases c2 <;>
          simp [hi, setB_setB, clrB_setB_setB, setB_clrB_setB hk hb,
            clrB_setB_clrB_setB _ hk]
      · simp [hi]
    · funext i
      simp only [drawPixel, if_pos hg]
      by_cases hi : i = (py.toNat * WIDTH + px.toNat) / 8
      · have hb : d.red ((py.toNat * WIDTH + px.toNat) / 8) < 256 := (hu _).2.1
        cases c <;> cases c2 <;>
          simp [hi, setB_setB, clrB_setB_setB, setB_clrB_setB hk hb,
            clrB_setB_clrB_setB _ hk]
      · simp [hi]
    · funext i
      simp only [drawPixel, if_pos hg]
      by_cases hi : i = (py.toNat * WIDTH + px.toNat) / 8
      · have hb : d.yellow ((py.toNat * WIDTH + px.toNat) / 8) < 256 := (hu _).2.2
        cases c <;> cases c2 <;>
          simp [hi, setB_setB, clrB_setB_setB, setB_clrB_setB hk hb,
            clrB_setB_clrB_setB _ hk]
      · simp [hi]
  · simp only [drawPixel, if_neg hg]

/-- C7: for every buffer state (with `u8` plane bytes, as the Rust arrays
guarantee), every coordinate and every pair of colors, drawing the same pixel
with the same color twice yields the buffer of drawing it once, and a later
draw at the same coordinate fully overrides the earlier one — no additive
blending.  Stated both for the single-pixel rule and for `draw_iter`. -/
theorem spec_C7 (d : DisplayBuffer) (x y : Int) (c c2 : QuadColor)
    (hu : u8Planes d) :
    drawPixel (drawPixel d x y c) x y c = drawPixel d x y c ∧
      drawPixel (drawPixel d x y c2) x y c = drawPixel d x y c ∧
      draw_iter d [(x, y, c), (x, y, c)] = draw_iter d [(x, y, c)] ∧
      draw_iter d [(x, y, c2), (x, y, c)] = draw_iter d [(x, y, c)] := by
  refine ⟨drawPixel_override d x y c c hu, drawPixel_override d x y c c2 hu, ?_, ?_⟩
  · simp [draw_iter, drawPixel_override d x y c c hu]
  · simp [draw_iter, drawPixel_override d x y c c2 hu]

/-- C7 witness: the theorem applied at the fresh buffer, coordinate `(3, 4)`,
drawing Red over Black. -/
theorem spec_C7_witness :
    drawPixel (drawPixel DisplayBuffer.new 3 4 QuadColor.Black) 3 4 QuadColor.Red =
      drawPixel DisplayBuffer.new 3 4 QuadColor.Red :=
  (spec_C7 DisplayBuffer.new 3 4 QuadColor.Red QuadColor.Black u8Planes_new).2.1

/-! ## C6: color exclusivity invariant -/

theorem getBit_255 : ∀ j, j < 8 → getBit 255 j = 1 := by decide

theorem exclusive_new : exclusive DisplayBuffer.new := by
  intro x y hx hy
  have hj : 7 - x % 8 < 8 := by omega
  unfold clearCount planeBit
  simp [DisplayBuffer.new, getBit_255 _ hj]

theorem exclusive_drawPixel (d : DisplayBuffer) (px py : Int) (c : QuadColor)
    (hd : exclusive d) : exclusive (drawPixel d px py c) := by
  by_cases hg : 0 ≤ px ∧ px < 250 ∧ 0 ≤ py ∧ py < 122
  · intro x y hx hy
    have hj : 7 - x % 8 < 8 := by omega
    have hk : 7 - px.toNat % 8 < 8 := by omega
    have hdxy := hd x y hx hy
    unfold clearCount planeBit at hdxy ⊢
    simp only [drawPixel, if_pos hg]
    by_cases hi : (y * WIDTH + x) / 8 = (py.toNat * WIDTH + px.toNat) / 8
    · rw [hi] at hdxy
      by_cases hbb : 7 - x % 8 = 7 - px.toNat % 8
      · rw [hbb] at hdxy ⊢
        cases c <;>
          simp [hi, getBit_setB, getBit_clrB _ _ _ hk hk]
      · cases c <;>
          simp only [hi, if_pos rfl] <;>
          simp [getBit_setB, getBit_clrB _ _ _ hk hj, hbb, hdxy]
    · simp only [if_neg hi]
      exact hdxy
  · intro x y hx hy
    have hne : drawPixel d px py c = d := by rw [drawPixel, if_neg hg]
    rw [hne]
    exact hd x y hx hy

theorem exclusive_draw_iter :
    ∀ (ps : List (Int × Int × QuadColor)) (d : DisplayBuffer),
      exclusive d → exclusive (draw_iter d ps) := by
  intro ps
  induction ps with
  | nil => intro d hd; simpa [draw_iter] using hd
  | cons p rest ih =>
    intro d hd
    simp only [draw_iter, List.foldl_cons]
    exact ih (drawPixel d p.1 p.2.1 p.2.2) (exclusive_drawPixel d p.1 p.2.1 p.2.2 hd)

theorem clearCount_drawPixel (d : DisplayBuffer) (px py : Int) (c : QuadColor)
    (h1 : 0 ≤ px) (h2 : px < 250) (h3 : 0 ≤ py) (h4 : py < 122) :
    clearCount (drawPixel d px py c) px.toNat py.toNat =
      if c = QuadColor.White then 0 else 1 := by
  have hg : 0 ≤ px ∧ px < 250 ∧ 0 ≤ py ∧ py < 122 := ⟨h1, h2, h3, h4⟩
  have hk : 7 - px.toNat % 8 < 8 := by omega
  unfold clearCount planeBit
  simp only [drawPixel, if_pos hg]
  cases c <;> simp [getBit_setB, getBit_clrB _ _ _ hk hk]

/-- C6: at every in-bounds coordinate at most one of the three plane bits is
clear — the invariant holds for the fresh buffer, is preserved by every
`draw_iter` and by `clear`, and a single in-bounds draw leaves exactly one
plane bit clear for Black/Red/Yellow and none for White at the drawn
coordinate. -/
theorem spec_C6 :
    exclusive DisplayBuffer.new ∧
      (∀ (d : DisplayBuffer) (ps : List (Int × Int × QuadColor)),
        exclusive d → exclusive (draw_iter d ps)) ∧
      (∀ d : DisplayBuffer, exclusive (DisplayBuffer.clear d)) ∧
      (∀ (d : DisplayBuffer) (px py : Int) (c : QuadColor),
        0 ≤ px → px < 250 → 0 ≤ py → py < 122 →
          clearCount (drawPixel d px py c) px.toNat py.toNat =
            if c = QuadColor.White then 0 else 1) := by
  refine ⟨exclusive_new, fun d ps hd => exclusive_draw_iter ps d hd, ?_, ?_⟩
  · intro d
    have : DisplayBuffer.clear d = DisplayBuffer.new := rfl
    rw [this]
    exact exclusive_new
  · exact clearCount_drawPixel

/-- C6 witness: the single-draw part applied at the fresh buffer, drawing
Black at `(5, 10)`, and the preservation part applied to the empty pixel
list. -/
theorem spec_C6_witness :
    clearCount (drawPixel DisplayBuffer.new 5 10 QuadColor.Black)
        (Int.toNat 5) (Int.toNat 10) = 1 ∧
      exclusive (draw_iter DisplayBuffer.new []) :=
  ⟨spec_C6.2.2.2 DisplayBuffer.new 5 10 QuadColor.Black
      (by decide) (by decide) (by decide) (by decide),
    spec_C6.2.1 DisplayBuffer.new [] spec_C6.1⟩

/-! ## C1: wire-format transposition of a single Black pixel -/

theorem getBit_251 : ∀ j, j < 8 → getBit 251 j = if j = 2 then 0 else 1 := by decide

theorem singleBlack_bw : ∀ i, singleBlackBuffer.bw i = if i = 313 then 251 else 255 := by
  intro i
  show (if i = 313 then clrB 2 (setB 2 255) else 255) = if i = 313 then 251 else 255
  split <;> rfl

theorem singleBlack_red : ∀ i, singleBlackBuffer.red i = 255 := by
  intro i
  show (if i = 313 then setB 2 255 else 255) = 255
  split <;> rfl

theorem singleBlack_yellow : ∀ i, singleBlackBuffer.yellow i = 255 := by
  intro i
  show (if i = 313 then setB 2 255 else 255) = 255
  split <;> rfl

theorem colorCode_singleBlack (ry rx : Nat) (h1 : ry < 250) (h2 : rx < 122) :
    colorCode singleBlackBuffer ry rx = if ry = 5 ∧ rx = 111 then 0 else 1 := by
  have hb : 7 - ry % 8 < 8 := by omega
  simp only [colorCode, WIDTH]
  rw [if_pos (show ry < 250 ∧ rx < 122 from ⟨h1, h2⟩)]
  simp only [singleBlack_bw, singleBlack_red, singleBlack_yellow]
  rw [show ((255 : Nat) >>> (7 - ry % 8)) &&& 1 = 1 from getBit_255 _ hb]
  by_cases hidx : ((121 - rx) * 250 + ry) / 8 = 313
  · rw [if_pos hidx,
      show ((251 : Nat) >>> (7 - ry % 8)) &&& 1 = if 7 - ry % 8 = 2 then 0 else 1 from
        getBit_251 _ hb]
    by_cases hbit : 7 - ry % 8 = 2
    · have hv1 : 2504 ≤ (121 - rx) * 250 + ry := by omega
      have hv2 : (121 - rx) * 250 + ry ≤ 2511 := by omega
      have hrx : rx = 111 := by omega
      have hry : ry = 5 := by omega
      simp [hbit, hrx, hry]
    · have hcond : ¬(ry = 5 ∧ rx = 111) := by
        rintro ⟨rfl, rfl⟩
        exact hbit (by norm_num)
      simp [hbit, hcond]
  · rw [if_neg hidx, show ((255 : Nat) >>> (7 - ry % 8)) &&& 1 = 1 from getBit_255 _ hb]
    have hcond : ¬(ry = 5 ∧ rx = 111) := by
      rintro ⟨rfl, rfl⟩
      exact hidx (by norm_num)
    simp [hcond]

theorem colorCode_singleBlack_all (ry rx : Nat) (h1 : ry < 250) :
    colorCode singleBlackBuffer ry rx = if ry = 5 ∧ rx = 111 then 0 else 1 := by
  by_cases h2 : rx < 122
  · exact colorCode_singleBlack ry rx h1 h2
  · rw [colorCode, if_neg (by omega), if_neg (by omega)]

theorem packByte_singleBlack_ne (ry b0 : Nat) (h1 : ry < 250) (h5 : ¬ry = 5) :
    packByte singleBlackBuffer ry b0 = 85 := by
  rw [packByte, show List.range 4 = [0, 1, 2, 3] from rfl]
  simp only [List.foldl_cons, List.foldl_nil]
  rw [colorCode_singleBlack_all ry (b0 + 0) h1, colorCode_singleBlack_all ry (b0 + 1) h1,
    colorCode_singleBlack_all ry (b0 + 2) h1, colorCode_singleBlack_all ry (b0 + 3) h1]
  rw [if_neg (by omega), if_neg (by omega), if_neg (by omega), if_neg (by omega)]
  decide

theorem row_singleBlack_ne (ry : Nat) (h1 : ry < 250) (h5 : ¬ry = 5) :
    ((List.range 32).map fun blk => packByte singleBlackBuffer ry (4 * blk)) =
      List.replicate 32 85 := by
  rw [List.eq_replicate_iff]
  refine ⟨by simp, ?_⟩
  intro b hb
  obtain ⟨blk, _, rfl⟩ := List.mem_map.mp hb
  exact packByte_singleBlack_ne ry (4 * blk) h1 h5

theorem row_singleBlack_five :
    ((List.range 32).map fun blk => packByte singleBlackBuffer 5 (4 * blk)) =
      List.replicate 27 85 ++ 84 :: List.replicate 4 85 := by
  decide

theorem flatMap_const_replicate {α : Type} (k b : Nat) :
    ∀ (l : List α) (f : α → List Nat), (∀ a ∈ l, f a = List.replicate k b) →
      l.flatMap f = List.replicate (l.length * k) b := by
  intro l
  induction l with
  | nil => intro f _; simp
  | cons a rest ih =>
    intro f h
    rw [List.flatMap_cons, h a (by simp), ih f (fun x hx => h x (by simp [hx])),
      ← List.replicate_add]
    congr 1
    simp [List.length_cons]
    ring

theorem frameBytes_singleBlack :
    frameBytes singleBlackBuffer =
      List.replicate 187 85 ++ 84 :: List.replicate 7812 85 := by
  have h6 : List.range 6 = List.range 5 ++ [5] := by decide
  rw [frameBytes, show (250 : Nat) = 6 + 244 from rfl, List.range_add, h6,
    List.flatMap_append, List.flatMap_append]
  have hA := flatMap_const_replicate 32 85 (List.range 5)
      (fun ry => (List.range 32).map fun blk => packByte singleBlackBuffer ry (4 * blk))
      (fun a ha => row_singleBlack_ne a (by simp at ha; omega) (by simp at ha; omega))
  simp only [List.length_range] at hA
  norm_num at hA
  have hC := flatMap_const_replicate 32 85 ((List.range 244).map fun x => 6 + x)
      (fun ry => (List.range 32).map fun blk => packByte singleBlackBuffer ry (4 * blk))
      (by
        intro a ha
        obtain ⟨kk, hkk, rfl⟩ := List.mem_map.mp ha
        have hk : kk < 244 := List.mem_range.mp hkk
        exact row_singleBlack_ne (6 + kk) (by omega) (by omega))
  simp only [List.length_map, List.length_range] at hC
  norm_num at hC
  rw [hA, hC, List.flatMap_singleton, row_singleBlack_five]
  simp only [List.append_assoc, List.cons_append, ← List.replicate_add]
  rw [← List.append_assoc, ← List.replicate_add]

/-- C1: for the buffer that is all-clear except a single Black pixel at
`(x = 5, y = 10)`, the 2-bit slot codes of `update_frames` are `0` (Black)
exactly at driver row `ly = 5`, sub-column `rx = 111` (buffer
`y = 121 - 111 = 10`) and `1` (White) at every other valid slot; in general a
valid slot's code is computed from the three plane bits at
`(x = ly, y = 121 - rx)` by red-clear → 3, yellow-clear → 2, bw-clear → 0,
else 1; four consecutive codes pack MSB-first into one byte, so the byte at
sequence position `5 * 32 + 27 = 187` (block base 108, slots 108..111) is
`0b01010100 = 84` and every other of the 8000 data bytes is
`0b01010101 = 85`. -/
theorem spec_C1 :
    (∀ ry rx, ry < 250 → rx < 122 →
      colorCode singleBlackBuffer ry rx = if ry = 5 ∧ rx = 111 then 0 else 1) ∧
      (∀ (d : DisplayBuffer) (ry rx : Nat), ry < 250 → rx < 122 →
        colorCode d ry rx =
          if planeBit d.red ry (121 - rx) = 0 then 3
          else if planeBit d.yellow ry (121 - rx) = 0 then 2
          else if planeBit d.bw ry (121 - rx) = 0 then 0
          else 1) ∧
      packByte singleBlackBuffer 5 108 = 84 ∧
      frameBytes singleBlackBuffer =
        List.replicate 187 85 ++ 84 :: List.replicate 7812 85 := by
  refine ⟨colorCode_singleBlack, ?_, by decide, frameBytes_singleBlack⟩
  intro d ry rx h1 h2
  rw [colorCode, if_pos (show ry < 250 ∧ rx < 122 from ⟨h1, h2⟩)]
  rfl

/-- C1 witness: the slot map applied at the Black slot `(5, 111)` and at a
White slot `(7, 3)`. -/
theorem spec_C1_witness :
    colorCode singleBlackBuffer 5 111 = 0 ∧ colorCode singleBlackBuffer 7 3 = 1 := by
  constructor
  · have h := spec_C1.1 5 111 (by decide) (by decide)
    simpa using h
  · have h := spec_C1.1 7 3 (by decide) (by decide)
    simpa using h

/-! ## C4: a fresh buffer transcodes to 8000 bytes of 0b01010101 -/

theorem colorCode_new (ry rx : Nat) : colorCode DisplayBuffer.new ry rx = 1 := by
  by_cases hg : ry < 250 ∧ rx < 122
  · have hb : 7 - ry % 8 < 8 := by omega
    simp only [colorCode, WIDTH, DisplayBuffer.new]
    rw [if_pos hg]
    simp only [show ((255 : Nat) >>> (7 - ry % 8)) &&& 1 = 1 from getBit_255 _ hb]
    norm_num
  · rw [colorCode, if_neg hg]

theorem packByte_new (ry b0 : Nat) : packByte DisplayBuffer.new ry b0 = 85 := by
  rw [packByte, show List.range 4 = [0, 1, 2, 3] from rfl]
  simp only [List.foldl_cons, List.foldl_nil]
  rw [colorCode_new ry (b0 + 0), colorCode_new ry (b0 + 1), colorCode_new ry (b0 + 2),
    colorCode_new ry (b0 + 3)]
  decide

theorem frameBytes_new : frameBytes DisplayBuffer.new = List.replicate 8000 85 := by
  rw [frameBytes]
  have h := flatMap_const_replicate 32 85 (List.range 250)
      (fun ry => (List.range 32).map fun blk => packByte DisplayBuffer.new ry (4 * blk))
      (by
        intro a _
        rw [List.eq_replicate_iff]
        refine ⟨by simp, ?_⟩
        intro b hb
        obtain ⟨blk, _, rfl⟩ := List.mem_map.mp hb
        exact packByte_new a (4 * blk))
  simp only [List.length_range] at h
  norm_num at h
  exact h

theorem bindE_ok {E : Type} (h : Harness E) (u : Unit)
    (k : Harness E → Harness E × Except E Unit) : bindE (h, Except.ok u) k = k h := rfl

theorem bindE_err {E : Type} (h : Harness E) (e : E)
    (k : Harness E → Harness E × Except E Unit) :
    bindE (h, Except.error e) k = (h, Except.error e) := rfl

theorem bindE_eq_ok {E : Type} (p : Harness E × Except E Unit)
    (k : Harness E → Harness E × Except E Unit) (hp : p.2 = Except.ok ()) :
    bindE p k = k p.1 := by
  unfold bindE
  rw [hp]

theorem bindE_eq_err {E : Type} (p : Harness E × Except E Unit) (e : E)
    (k : Harness E → Harness E × Except E Unit) (hp : p.2 = Except.error e) :
    bindE p k = (p.1, Except.error e) := by
  unfold bindE
  rw [hp]

theorem bindEO_eq_ok {E : Type} (p : Harness E × Except E Unit)
    (k : Harness E → Option (Harness E × Except E Unit)) (hp : p.2 = Except.ok ()) :
    bindEO p k = k p.1 := by
  unfold bindEO
  rw [hp]

theorem bindEO_eq_err {E : Type} (p : Harness E × Except E Unit) (e : E)
    (k : Harness E → Option (Harness E × Except E Unit)) (hp : p.2 = Except.error e) :
    bindEO p k = some (p.1, Except.error e) := by
  unfold bindEO
  rw [hp]

theorem bindW_some {E : Type} (h : Harness E)
    (k : Harness E → Option (Harness E × Except E Unit)) :
    bindW (some h) k = k h := rfl

theorem bindW_none {E : Type}
    (k : Harness E → Option (Harness E × Except E Unit)) :
    bindW (none : Option (Harness E)) k = none := rfl

theorem writeFrame_ok {E : Type} :
    ∀ (bs : List Nat) (h : Harness E),
      (∀ n, n < bs.length → h.spiResp (h.nWrites + n) = Except.ok ()) →
      Jd79661.writeFrame h bs =
        ({ h with
            nWrites := h.nWrites + bs.length
            trace := (bs.reverse.map fun b => Ev.write [b]) ++ h.trace },
          Except.ok ()) := by
  intro bs
  induction bs with
  | nil => intro h _; simp [Jd79661.writeFrame]
  | cons b rest ih =>
    intro h hok
    have h0 : h.spiResp h.nWrites = Except.ok () := by simpa using hok 0 (by simp)
    have hrec := ih { h with nWrites := h.nWrites + 1, trace := Ev.write [b] :: h.trace }
      (by
        intro n hn
        have := hok (n + 1) (by simp only [List.length_cons]; omega)
        simpa [Nat.add_assoc, Nat.add_comm, Nat.add_left_comm] using this)
    simp only [Jd79661.writeFrame, spiWrite, h0, bindE_ok, hrec]
    simp [List.reverse_cons, List.map_append, List.append_assoc, Nat.add_assoc,
      Nat.add_comm, Nat.add_left_comm]

/-! ## Behavior of `command` and the busy-wait on a generic harness -/

theorem command_err0 {E : Type} (h : Harness E) (c : Nat) (ds : List Nat) (e : E)
    (h0 : h.spiResp h.nWrites = Except.error e) :
    Jd79661.command h c ds =
      ({ h with
          nWrites := h.nWrites + 1
          trace := [Ev.write [c], Ev.cs false, Ev.dc false] ++ h.trace },
        Except.error e) := by
  simp [Jd79661.command, spiWrite, emit, bindE, h0]

theorem command_ok_nil {E : Type} (h : Harness E) (c : Nat)
    (h0 : h.spiResp h.nWrites = Except.ok ()) :
    Jd79661.command h c [] =
      ({ h with
          nWrites := h.nWrites + 1
          trace := [Ev.cs true, Ev.write [c], Ev.cs false, Ev.dc false] ++ h.trace },
        Except.ok ()) := by
  simp [Jd79661.command, spiWrite, emit, bindE, h0]

theorem command_ok_cons {E : Type} (h : Harness E) (c : Nat) (ds : List Nat)
    (hne : ds ≠ [])
    (h0 : h.spiResp h.nWrites = Except.ok ())
    (h1 : h.spiResp (h.nWrites + 1) = Except.ok ()) :
    Jd79661.command h c ds =
      ({ h with
          nWrites := h.nWrites + 2
          trace := [Ev.cs true, Ev.write ds, Ev.cs false, Ev.dc true,
            Ev.cs true, Ev.write [c], Ev.cs false, Ev.dc false] ++ h.trace },
        Except.ok ()) := by
  cases ds with
  | nil => exact absurd rfl hne
  | cons d dt =>
    simp [Jd79661.command, spiWrite, emit, bindE, h0, h1]

theorem command_err1 {E : Type} (h : Harness E) (c : Nat) (ds : List Nat) (e : E)
    (hne : ds ≠ [])
    (h0 : h.spiResp h.nWrites = Except.ok ())
    (h1 : h.spiResp (h.nWrites + 1) = Except.error e) :
    Jd79661.command h c ds =
      ({ h with
          nWrites := h.nWrites + 2
          trace := [Ev.write ds, Ev.cs false, Ev.dc true,
            Ev.cs true, Ev.write [c], Ev.cs false, Ev.dc false] ++ h.trace },
        Except.error e) := by
  cases ds with
  | nil => exact absurd rfl hne
  | cons d dt =>
    simp [Jd79661.command, spiWrite, emit, bindE, h0, h1]

theorem wait_busy_ready {E : Type} (h : Harness E) (fuel : Nat) (hf : 1 ≤ fuel)
    (hb : h.busyResp h.nPolls = Except.ok false) :
    Jd79661.wait_busy h fuel = some { h with nPolls := h.nPolls + 1 } := by
  obtain ⟨f, rfl⟩ : ∃ f, fuel = f + 1 := ⟨fuel - 1, by omega⟩
  simp [Jd79661.wait_busy, pollBusy, unwrapOr, hb]

theorem writesOfCmds_init : writesOfCmds Jd79661.initSequence = 28 := rfl

theorem frameBytes_length (d : DisplayBuffer) : (frameBytes d).length = 8000 := by
  rw [frameBytes, List.length_flatMap]
  have hmap : (List.range 250).map
      (List.length ∘ fun ry => (List.range 32).map fun blk => packByte d ry (4 * blk)) =
      List.replicate 250 32 := by
    rw [List.eq_replicate_iff]
    refine ⟨by simp, ?_⟩
    intro b hb
    obtain ⟨a, _, rfl⟩ := List.mem_map.mp hb
    simp
  rw [hmap, List.sum_replicate]
  simp


theorem update_frames_ok {E : Type} (h : Harness E) (d : DisplayBuffer)
    (h0 : h.spiResp h.nWrites = Except.ok ())
    (hrest : ∀ n, n < (frameBytes d).length →
      h.spiResp (h.nWrites + 1 + n) = Except.ok ()) :
    Jd79661.update_frames h d =
      (⟨h.spiResp, h.busyResp, h.nWrites + 1 + (frameBytes d).length, h.nPolls,
        Ev.cs true ::
          (((frameBytes d).reverse.map fun b => Ev.write [b]) ++
            Ev.cs false :: Ev.dc true ::
              ([Ev.cs true, Ev.write [16], Ev.cs false, Ev.dc false] ++ h.trace))⟩,
        Except.ok ()) := by
  conv_lhs => rw [Jd79661.update_frames]
  rw [command_ok_nil h 16 h0]
  simp only [bindE_ok, emit]
  rw [writeFrame_ok (frameBytes d)
    (⟨h.spiResp, h.busyResp, h.nWrites + 1, h.nPolls,
      Ev.cs false :: Ev.dc true ::
        ([Ev.cs true, Ev.write [16], Ev.cs false, Ev.dc false] ++ h.trace)⟩ : Harness E)
    (fun n hn => hrest n hn)]
  simp only [bindE_ok, emit]

/-- C4: for a freshly constructed (equivalently, freshly cleared)
DisplayBuffer, `update_frames` against the all-succeeding mock issues the
`0x10` opcode and then writes exactly `250 * (128/4) = 8000` data bytes with
DC high, every one equal to `0b01010101 = 85`, ending with one extra SPI
write count for the opcode (8001 total writes). -/
theorem spec_C4 :
    frameBytes DisplayBuffer.new = List.replicate 8000 85 ∧
      (Jd79661.update_frames mockOk DisplayBuffer.new).2 = Except.ok () ∧
      (Jd79661.update_frames mockOk DisplayBuffer.new).1.nWrites = 8001 ∧
      (Jd79661.update_frames mockOk DisplayBuffer.new).1.trace.reverse =
        [Ev.dc false, Ev.cs false, Ev.write [16], Ev.cs true, Ev.dc true, Ev.cs false] ++
          List.replicate 8000 (Ev.write [85]) ++ [Ev.cs true] := by
  have hrev6 : ([Ev.cs false, Ev.dc true, Ev.cs true, Ev.write [16], Ev.cs false,
      Ev.dc false] : List Ev).reverse =
      [Ev.dc false, Ev.cs false, Ev.write [16], Ev.cs true, Ev.dc true, Ev.cs false] := rfl
  have hrun := update_frames_ok mockOk DisplayBuffer.new rfl (fun n _ => rfl)
  rw [frameBytes_length, frameBytes_new, List.reverse_replicate,
    List.map_replicate] at hrun
  conv at hrun => rhs; simp only [mockOk, List.append_nil]
  refine ⟨frameBytes_new, ?_, ?_, ?_⟩
  · rw [hrun]
  · rw [hrun]
  · rewrite [hrun]
    show (Ev.cs true :: (List.replicate 8000 (Ev.write [85]) ++
        [Ev.cs false, Ev.dc true, Ev.cs true, Ev.write [16], Ev.cs false,
          Ev.dc false])).reverse = _
    rewrite [List.reverse_cons, List.reverse_append, List.reverse_replicate, hrev6,
      List.append_assoc]
    rfl


/-! ## Error propagation through the write loops -/

theorem writeFrame_err {E : Type} :
    ∀ (bs : List Nat) (h : Harness E) (k : Nat) (e : E),
      (∀ n, n < k → h.spiResp (h.nWrites + n) = Except.ok ()) →
      h.spiResp (h.nWrites + k) = Except.error e →
      k < bs.length →
      ∃ h2, Jd79661.writeFrame h bs = (h2, Except.error e) ∧
        h2.nWrites = h.nWrites + k + 1 := by
  intro bs
  induction bs with
  | nil => intro h k e _ _ hk; simp at hk
  | cons b rest ih =>
    intro h k e hok herr hk
    cases k with
    | zero =>
      have h0 : h.spiResp h.nWrites = Except.error e := by simpa using herr
      refine ⟨{ h with nWrites := h.nWrites + 1, trace := Ev.write [b] :: h.trace },
        ?_, rfl⟩
      simp [Jd79661.writeFrame, spiWrite, bindE, h0]
    | succ k =>
      have h0 : h.spiResp h.nWrites = Except.ok () := by simpa using hok 0 (by omega)
      obtain ⟨h2, heq, hn⟩ := ih
        { h with nWrites := h.nWrites + 1, trace := Ev.write [b] :: h.trace } k e
        (fun n hn => by
          rw [show h.nWrites + 1 + n = h.nWrites + (n + 1) from by omega]
          exact hok (n + 1) (by omega))
        (by
          rw [show h.nWrites + 1 + k = h.nWrites + (k + 1) from by omega]
          exact herr)
        (by simp only [List.length_cons] at hk; omega)
      refine ⟨h2, ?_, ?_⟩
      · simp only [Jd79661.writeFrame, spiWrite, h0, bindE_ok]
        exact heq
      · have hn' : h2.nWrites = h.nWrites + 1 + k + 1 := hn
        omega

theorem runCommands_ok {E : Type} :
    ∀ (cs : List (Nat × List Nat)) (h : Harness E),
      (∀ n, n < writesOfCmds cs → h.spiResp (h.nWrites + n) = Except.ok ()) →
      ∃ h2, Jd79661.runCommands h cs = (h2, Except.ok ()) ∧
        h2.nWrites = h.nWrites + writesOfCmds cs ∧ h2.spiResp = h.spiResp ∧
        h2.busyResp = h.busyResp ∧ h2.nPolls = h.nPolls := by
  intro cs
  induction cs with
  | nil =>
    intro h _
    exact ⟨h, rfl, by simp [writesOfCmds], rfl, rfl, rfl⟩
  | cons c rest ih =>
    intro h hok
    obtain ⟨op, ds⟩ := c
    have hwsum : writesOfCmds ((op, ds) :: rest) =
        writesOfCmd (op, ds) + writesOfCmds rest := by
      simp [writesOfCmds]
    cases ds with
    | nil =>
      have hw1 : writesOfCmd (op, ([] : List Nat)) = 1 := rfl
      have h0 : h.spiResp h.nWrites = Except.ok () := by
        simpa using hok 0 (by rw [hwsum, hw1]; omega)
      obtain ⟨h2, heq, hn, hs, hb2, hp⟩ := ih
        { h with
            nWrites := h.nWrites + 1
            trace := [Ev.cs true, Ev.write [op], Ev.cs false, Ev.dc false] ++ h.trace }
        (fun n hn => by
          rw [show h.nWrites + 1 + n = h.nWrites + (1 + n) from by omega]
          exact hok (1 + n) (by rw [hwsum, hw1]; omega))
      refine ⟨h2, ?_, ?_, hs, hb2, hp⟩
      · simp only [Jd79661.runCommands]
        rw [command_ok_nil h op h0]
        simp only [bindE_ok]
        exact heq
      · have hn' : h2.nWrites = h.nWrites + 1 + writesOfCmds rest := hn
        rw [hwsum, hw1]
        omega
    | cons d dt =>
      have hw2 : writesOfCmd (op, d :: dt) = 2 := rfl
      have h0 : h.spiResp h.nWrites = Except.ok () := by
        simpa using hok 0 (by rw [hwsum, hw2]; omega)
      have h1 : h.spiResp (h.nWrites + 1) = Except.ok () := by
        simpa using hok 1 (by rw [hwsum, hw2]; omega)
      obtain ⟨h2, heq, hn, hs, hb2, hp⟩ := ih
        { h with
            nWrites := h.nWrites + 2
            trace := [Ev.cs true, Ev.write (d :: dt), Ev.cs false, Ev.dc true,
              Ev.cs true, Ev.write [op], Ev.cs false, Ev.dc false] ++ h.trace }
        (fun n hn => by
          rw [show h.nWrites + 2 + n = h.nWrites + (2 + n) from by omega]
          exact hok (2 + n) (by rw [hwsum, hw2]; omega))
      refine ⟨h2, ?_, ?_, hs, hb2, hp⟩
      · simp only [Jd79661.runCommands]
        rw [command_ok_cons h op (d :: dt) (by simp) h0 h1]
        simp only [bindE_ok]
        exact heq
      · have hn' : h2.nWrites = h.nWrites + 2 + writesOfCmds rest := hn
        rw [hwsum, hw2]
        omega

theorem runCommands_err {E : Type} :
    ∀ (cs : List (Nat × List Nat)) (h : Harness E) (k : Nat) (e : E),
      (∀ n, n < k → h.spiResp (h.nWrites + n) = Except.ok ()) →
      h.spiResp (h.nWrites + k) = Except.error e →
      k < writesOfCmds cs →
      ∃ h2, Jd79661.runCommands h cs = (h2, Except.error e) ∧
        h2.nWrites = h.nWrites + k + 1 := by
  intro cs
  induction cs with
  | nil => intro h k e _ _ hk; simp [writesOfCmds] at hk
  | cons c rest ih =>
    intro h k e hok herr hk
    obtain ⟨op, ds⟩ := c
    have hwsum : writesOfCmds ((op, ds) :: rest) =
        writesOfCmd (op, ds) + writesOfCmds rest := by
      simp [writesOfCmds]
    cases ds with
    | nil =>
      have hw1 : writesOfCmd (op, ([] : List Nat)) = 1 := rfl
      cases k with
      | zero =>
        have h0 : h.spiResp h.nWrites = Except.error e := by simpa using herr
        refine ⟨{ h with
            nWrites := h.nWrites + 1
            trace := [Ev.write [op], Ev.cs false, Ev.dc false] ++ h.trace }, ?_, rfl⟩
        simp only [Jd79661.runCommands]
        rw [command_err0 h op [] e h0]
        exact bindE_err _ _ _
      | succ k =>
        have h0 : h.spiResp h.nWrites = Except.ok () := by simpa using hok 0 (by omega)
        obtain ⟨h2, heq, hn⟩ := ih
          { h with
              nWrites := h.nWrites + 1
              trace := [Ev.cs true, Ev.write [op], Ev.cs false, Ev.dc false] ++ h.trace }
          k e
          (fun n hn => by
            rw [show h.nWrites + 1 + n = h.nWrites + (n + 1) from by omega]
            exact hok (n + 1) (by omega))
          (by
            rw [show h.nWrites + 1 + k = h.nWrites + (k + 1) from by omega]
            exact herr)
          (by rw [hwsum, hw1] at hk; omega)
        have hn' : h2.nWrites = h.nWrites + 1 + k + 1 := hn
        refine ⟨h2, ?_, by omega⟩
        simp only [Jd79661.runCommands]
        rw [command_ok_nil h op h0]
        simp only [bindE_ok]
        exact heq
    | cons d dt =>
      have hw2 : writesOfCmd (op, d :: dt) = 2 := rfl
      cases k with
      | zero =>
        have h0 : h.spiResp h.nWrites = Except.error e := by simpa using herr
        refine ⟨{ h with
            nWrites := h.nWrites + 1
            trace := [Ev.write [op], Ev.cs false, Ev.dc false] ++ h.trace }, ?_, rfl⟩
        simp only [Jd79661.runCommands]
        rw [command_err0 h op (d :: dt) e h0]
        exact bindE_err _ _ _
      | succ k =>
        have h0 : h.spiResp h.nWrites = Except.ok () := by simpa using hok 0 (by omega)
        cases k with
        | zero =>
          have h1 : h.spiResp (h.nWrites + 1) = Except.error e := by simpa using herr
          refine ⟨{ h with
              nWrites := h.nWrites + 2
              trace := [Ev.write (d :: dt), Ev.cs false, Ev.dc true,
                Ev.cs true, Ev.write [op], Ev.cs false, Ev.dc false] ++ h.trace }, ?_, rfl⟩
          simp only [Jd79661.runCommands]
          rw [command_err1 h op (d :: dt) e (by simp) h0 h1]
          exact bindE_err _ _ _
        | succ k =>
          have h1 : h.spiResp (h.nWrites + 1) = Except.ok () := by
            simpa using hok 1 (by omega)
          obtain ⟨h2, heq, hn⟩ := ih
            { h with
                nWrites := h.nWrites + 2
                trace := [Ev.cs true, Ev.write (d :: dt), Ev.cs false, Ev.dc true,
                  Ev.cs true, Ev.write [op], Ev.cs false, Ev.dc false] ++ h.trace }
            k e
            (fun n hn => by
              rw [show h.nWrites + 2 + n = h.nWrites + (n + 2) from by omega]
              exact hok (n + 2) (by omega))
            (by
              rw [show h.nWrites + 2 + k = h.nWrites + (k + 1 + 1) from by omega]
              exact herr)
            (by rw [hwsum, hw2] at hk; omega)
          have hn' : h2.nWrites = h.nWrites + 2 + k + 1 := hn
          refine ⟨h2, ?_, by omega⟩
          simp only [Jd79661.runCommands]
          rw [command_ok_cons h op (d :: dt) (by simp) h0 h1]
          simp only [bindE_ok]
          exact heq

/-! ## Busy-wait: unboundedness, delay trace, and error swallowing -/

theorem bindEO_ok {E : Type} (h : Harness E) (u : Unit)
    (k : Harness E → Option (Harness E × Except E Unit)) :
    bindEO (h, Except.ok u) k = k h := rfl

theorem bindEO_err {E : Type} (h : Harness E) (e : E)
    (k : Harness E → Option (Harness E × Except E Unit)) :
    bindEO (h, Except.error e) k = some (h, Except.error e) := rfl

theorem wait_busy_unbounded {E : Type} :
    ∀ (fuel : Nat) (h : Harness E), (∀ n, h.busyResp n = Except.ok true) →
      Jd79661.wait_busy h fuel = none := by
  intro fuel
  induction fuel with
  | zero => intro h _; rfl
  | succ f ih =>
    intro h hb
    simp only [Jd79661.wait_busy, pollBusy, unwrapOr, hb]
    exact ih _ hb

theorem wait_busy_some {E : Type} :
    ∀ (fuel : Nat) (h h2 : Harness E), Jd79661.wait_busy h fuel = some h2 →
      h2.spiResp = h.spiResp ∧ h2.busyResp = h.busyResp ∧ h2.nWrites = h.nWrites ∧
      h.nPolls + 1 ≤ h2.nPolls ∧
      h2.trace = List.replicate (h2.nPolls - h.nPolls - 1) (Ev.delayMs 1) ++ h.trace := by
  intro fuel
  induction fuel with
  | zero => intro h h2 hw; simp [Jd79661.wait_busy] at hw
  | succ f ih =>
    intro h h2 hw
    simp only [Jd79661.wait_busy, pollBusy] at hw
    cases hcond : unwrapOr (h.busyResp h.nPolls) with
    | false =>
      rw [hcond] at hw
      simp only [Bool.false_eq_true, if_false, Option.some.injEq] at hw
      subst hw
      refine ⟨rfl, rfl, rfl, le_rfl, ?_⟩
      show h.trace =
        List.replicate (h.nPolls + 1 - h.nPolls - 1) (Ev.delayMs 1) ++ h.trace
      rw [Nat.add_sub_cancel_left]
      rfl
    | true =>
      rw [hcond] at hw
      simp only [if_true] at hw
      obtain ⟨hs, hb2, hn, hp, ht⟩ := ih _ _ hw
      have hp' : h.nPolls + 1 + 1 ≤ h2.nPolls := hp
      refine ⟨hs, hb2, hn, by omega, ?_⟩
      rw [ht]
      show List.replicate (h2.nPolls - (h.nPolls + 1) - 1) (Ev.delayMs 1) ++
          (Ev.delayMs 1 :: h.trace) =
        List.replicate (h2.nPolls - h.nPolls - 1) (Ev.delayMs 1) ++ h.trace
      have hm : h2.nPolls - h.nPolls - 1 = (h2.nPolls - (h.nPolls + 1) - 1) + 1 := by
        omega
      rw [hm, List.replicate_succ']
      simp [List.append_assoc]

theorem wait_busy_err_exit {E : Type} :
    ∀ (k : Nat) (h : Harness E) (fuel : Nat) (e : E),
      (∀ n, n < k → h.busyResp (h.nPolls + n) = Except.ok true) →
      h.busyResp (h.nPolls + k) = Except.error e →
      k + 1 ≤ fuel →
      ∃ h2, Jd79661.wait_busy h fuel = some h2 ∧ h2.nPolls = h.nPolls + k + 1 ∧
        h2.spiResp = h.spiResp ∧ h2.busyResp = h.busyResp ∧ h2.nWrites = h.nWrites := by
  intro k
  induction k with
  | zero =>
    intro h fuel e _ herr hf
    obtain ⟨f, rfl⟩ : ∃ f, fuel = f + 1 := ⟨fuel - 1, by omega⟩
    have h0 : h.busyResp h.nPolls = Except.error e := by simpa using herr
    refine ⟨{ h with nPolls := h.nPolls + 1 }, ?_, rfl, rfl, rfl, rfl⟩
    simp [Jd79661.wait_busy, pollBusy, unwrapOr, h0]
  | succ k ih =>
    intro h fuel e hok herr hf
    obtain ⟨f, rfl⟩ : ∃ f, fuel = f + 1 := ⟨fuel - 1, by omega⟩
    have h0 : h.busyResp h.nPolls = Except.ok true := by simpa using hok 0 (by omega)
    obtain ⟨h2, heq, hn, hs, hb2, hw⟩ := ih
      (emit { h with nPolls := h.nPolls + 1 } (Ev.delayMs 1)) f e
      (fun n hn => by
        show h.busyResp (h.nPolls + 1 + n) = Except.ok true
        rw [show h.nPolls + 1 + n = h.nPolls + (n + 1) from by omega]
        exact hok (n + 1) (by omega))
      (by
        show h.busyResp (h.nPolls + 1 + k) = Except.error e
        rw [show h.nPolls + 1 + k = h.nPolls + (k + 1) from by omega]
        exact herr)
      (by omega)
    refine ⟨h2, ?_, ?_, hs, hb2, hw⟩
    · simp only [Jd79661.wait_busy, pollBusy, unwrapOr, h0]
      exact heq
    · have hn' : h2.nPolls = h.nPolls + 1 + k + 1 := hn
      omega

/-- C9: `wait_busy` polls the busy line with a fixed 1 ms delay between polls
and has no iteration bound or timeout: on a harness whose busy pin reads low
(`Ok(true)` from `is_low`) at every poll, `wait_busy` never exits within any
fuel, so `display_frame` (after a successful `0x12` write) blocks forever;
and whenever `wait_busy` does exit, the events it has recorded are exactly
one `delay_ms(1)` per extra poll. -/
theorem spec_C9 :
    ∀ (E : Type) (h : Harness E),
      ((∀ n, h.busyResp n = Except.ok true) →
        (∀ fuel, Jd79661.wait_busy h fuel = none) ∧
        (h.spiResp h.nWrites = Except.ok () →
          ∀ fuel, Jd79661.display_frame h fuel = none)) ∧
      (∀ fuel h2, Jd79661.wait_busy h fuel = some h2 →
        h2.trace = List.replicate (h2.nPolls - h.nPolls - 1) (Ev.delayMs 1) ++
          h.trace) := by
  intro E h
  constructor
  · intro hb
    refine ⟨fun fuel => wait_busy_unbounded fuel h hb, ?_⟩
    intro hs fuel
    simp only [Jd79661.display_frame]
    rw [command_ok_nil h 18 hs]
    simp only [bindEO_ok]
    rw [wait_busy_unbounded fuel
      ({ h with
          nWrites := h.nWrites + 1
          trace := [Ev.cs true, Ev.write [18], Ev.cs false, Ev.dc false] ++ h.trace } :
        Harness E) hb]
    rfl
  · intro fuel h2 hw
    exact (wait_busy_some fuel h h2 hw).2.2.2.2

/-- C9 witness: the unbounded-wait part applied to a harness whose busy pin
always reads low, at fuel 7. -/
theorem spec_C9_witness :
    Jd79661.wait_busy
      (⟨fun _ => Except.ok (), fun _ => Except.ok true, 0, 0, []⟩ : Harness Unit) 7 =
      none :=
  ((spec_C9 Unit ⟨fun _ => Except.ok (), fun _ => Except.ok true, 0, 0, []⟩).1
    (fun _ => rfl)).1 7

/-- C10: a failing read of the busy pin is treated as "not busy":
`unwrap_or(false)` silently discards the error, the polling loop exits at
that poll (never propagating the error — `wait_busy` cannot return one), and
`display_frame` proceeds and returns success as if the panel had reported
ready. -/
theorem spec_C10 :
    ∀ (E : Type) (h : Harness E) (k fuel : Nat) (e : E),
      (∀ n, n < k → h.busyResp (h.nPolls + n) = Except.ok true) →
      h.busyResp (h.nPolls + k) = Except.error e →
      k + 1 ≤ fuel →
      (∃ h2, Jd79661.wait_busy h fuel = some h2 ∧ h2.nPolls = h.nPolls + k + 1) ∧
      (h.spiResp h.nWrites = Except.ok () →
        ∃ h2, Jd79661.display_frame h fuel = some (h2, Except.ok ())) := by
  intro E h k fuel e hok herr hf
  constructor
  · obtain ⟨h2, heq, hn, _, _, _⟩ := wait_busy_err_exit k h fuel e hok herr hf
    exact ⟨h2, heq, hn⟩
  · intro hs
    simp only [Jd79661.display_frame]
    rw [command_ok_nil h 18 hs]
    simp only [bindEO_ok]
    obtain ⟨h2, heq, _, _, _, _⟩ := wait_busy_err_exit k
      ({ h with
          nWrites := h.nWrites + 1
          trace := [Ev.cs true, Ev.write [18], Ev.cs false, Ev.dc false] ++ h.trace } :
        Harness E)
      fuel e hok herr hf
    rw [heq]
    exact ⟨h2, rfl⟩

/-- C10 witness: the theorem applied to a harness whose busy pin reads low
twice and then errors, with fuel 3. -/
theorem spec_C10_witness :
    (∃ h2, Jd79661.wait_busy
      (⟨fun _ => Except.ok (), fun n => if n = 2 then Except.error 7 else Except.ok true,
        0, 0, []⟩ : Harness Nat) 3 = some h2 ∧ h2.nPolls = 3) ∧
    (∃ h2, Jd79661.display_frame
      (⟨fun _ => Except.ok (), fun n => if n = 2 then Except.error 7 else Except.ok true,
        0, 0, []⟩ : Harness Nat) 3 = some (h2, Except.ok ())) := by
  have h := spec_C10 Nat
    (⟨fun _ => Except.ok (), fun n => if n = 2 then Except.error 7 else Except.ok true,
      0, 0, []⟩ : Harness Nat) 2 3 7
    (fun n hn => by interval_cases n <;> rfl) rfl (by decide)
  exact ⟨h.1, h.2 rfl⟩

/-! ## C8: SPI errors propagate unchanged, with no retry -/

/-- C8: if the harness's busy line is always ready and its `k`-th SPI write
(counting from the current state) fails with error `e` while all earlier
writes succeed, then `new` (for `k` within its 30 writes), `update_frames`
(for `k` within its 8001 writes) and `display_frame` (for `k = 0`, its only
write) each return exactly `Except.error e` — the same underlying error,
never remapped — and the total number of SPI writes performed is `k + 1`:
the failing write is attempted once and nothing is retried after it. -/
theorem spec_C8 :
    ∀ (E : Type) (h : Harness E) (d : DisplayBuffer) (e : E) (k fuel : Nat),
      (∀ n, h.busyResp n = Except.ok false) →
      (∀ n, n < k → h.spiResp (h.nWrites + n) = Except.ok ()) →
      h.spiResp (h.nWrites + k) = Except.error e →
      1 ≤ fuel →
      (k < 30 → (Jd79661.new h fuel).map (fun p => (p.2, p.1.nWrites)) =
        some (Except.error e, h.nWrites + k + 1)) ∧
      (k < 8001 →
        ((Jd79661.update_frames h d).2, (Jd79661.update_frames h d).1.nWrites) =
          (Except.error e, h.nWrites + k + 1)) ∧
      (k = 0 → (Jd79661.display_frame h fuel).map (fun p => (p.2, p.1.nWrites)) =
        some (Except.error e, h.nWrites + 1)) := by
  intro E h d e k fuel hbusy hok herr hf
  refine ⟨?_, ?_, ?_⟩
  · -- new
    intro hk30
    simp only [Jd79661.new, emit]
    rw [show Jd79661.wait_busy
        (⟨h.spiResp, h.busyResp, h.nWrites, h.nPolls,
          Ev.delayMs 10 :: Ev.rst true :: Ev.delayMs 10 :: Ev.rst false :: h.trace⟩ :
          Harness E) fuel =
        some ⟨h.spiResp, h.busyResp, h.nWrites, h.nPolls + 1,
          Ev.delayMs 10 :: Ev.rst true :: Ev.delayMs 10 :: Ev.rst false :: h.trace⟩ from
      wait_busy_ready _ fuel hf (hbusy _)]
    rw [bindW_some]
    by_cases hk0 : k = 0
    · subst hk0
      rw [show Jd79661.command
          (⟨h.spiResp, h.busyResp, h.nWrites, h.nPolls + 1,
            Ev.delayMs 10 :: Ev.rst true :: Ev.delayMs 10 :: Ev.rst false :: h.trace⟩ :
            Harness E) 1 [] =
          (⟨h.spiResp, h.busyResp, h.nWrites + 1, h.nPolls + 1,
            Ev.write [1] :: Ev.cs false :: Ev.dc false :: Ev.delayMs 10 :: Ev.rst true ::
              Ev.delayMs 10 :: Ev.rst false :: h.trace⟩,
            Except.error e) from
        command_err0 _ 1 [] e (by simpa using herr)]
      rw [bindEO_err]
      simp
    · rw [show Jd79661.command
          (⟨h.spiResp, h.busyResp, h.nWrites, h.nPolls + 1,
            Ev.delayMs 10 :: Ev.rst true :: Ev.delayMs 10 :: Ev.rst false :: h.trace⟩ :
            Harness E) 1 [] =
          (⟨h.spiResp, h.busyResp, h.nWrites + 1, h.nPolls + 1,
            Ev.cs true :: Ev.write [1] :: Ev.cs false :: Ev.dc false :: Ev.delayMs 10 ::
              Ev.rst true :: Ev.delayMs 10 :: Ev.rst false :: h.trace⟩,
            Except.ok ()) from
        command_ok_nil _ 1 (by simpa using hok 0 (by omega))]
      rw [bindEO_ok]
      rw [show Jd79661.wait_busy
          (⟨h.spiResp, h.busyResp, h.nWrites + 1, h.nPolls + 1,
            Ev.cs true :: Ev.write [1] :: Ev.cs false :: Ev.dc false :: Ev.delayMs 10 ::
              Ev.rst true :: Ev.delayMs 10 :: Ev.rst false :: h.trace⟩ :
            Harness E) fuel =
          some ⟨h.spiResp, h.busyResp, h.nWrites + 1, h.nPolls + 2,
            Ev.cs true :: Ev.write [1] :: Ev.cs false :: Ev.dc false :: Ev.delayMs 10 ::
              Ev.rst true :: Ev.delayMs 10 :: Ev.rst false :: h.trace⟩ from
        wait_busy_ready _ fuel hf (hbusy _)]
      rw [bindW_some]
      by_cases hk29 : k < 29
      · obtain ⟨h5, heq5, hn5⟩ := runCommands_err Jd79661.initSequence
          (⟨h.spiResp, h.busyResp, h.nWrites + 1, h.nPolls + 2,
            Ev.cs true :: Ev.write [1] :: Ev.cs false :: Ev.dc false :: Ev.delayMs 10 ::
              Ev.rst true :: Ev.delayMs 10 :: Ev.rst false :: h.trace⟩ : Harness E)
          (k - 1) e
          (fun n hn => by
            show h.spiResp (h.nWrites + 1 + n) = Except.ok ()
            rw [show h.nWrites + 1 + n = h.nWrites + (n + 1) from by omega]
            exact hok (n + 1) (by omega))
          (by
            show h.spiResp (h.nWrites + 1 + (k - 1)) = Except.error e
            rw [show h.nWrites + 1 + (k - 1) = h.nWrites + k from by omega]
            exact herr)
          (by rw [writesOfCmds_init]; omega)
        rw [heq5, bindEO_err]
        have hn5' : h5.nWrites = h.nWrites + 1 + (k - 1) + 1 := hn5
        simp only [Option.map_some', Option.some.injEq, Prod.mk.injEq]
        exact ⟨trivial, by rw [hn5']; omega⟩
      · have hk' : k = 29 := by omega
        subst hk'
        obtain ⟨h5, heq5, hn5, hs5, hb5, hp5⟩ := runCommands_ok Jd79661.initSequence
          (⟨h.spiResp, h.busyResp, h.nWrites + 1, h.nPolls + 2,
            Ev.cs true :: Ev.write [1] :: Ev.cs false :: Ev.dc false :: Ev.delayMs 10 ::
              Ev.rst true :: Ev.delayMs 10 :: Ev.rst false :: h.trace⟩ : Harness E)
          (fun n hn => by
            show h.spiResp (h.nWrites + 1 + n) = Except.ok ()
            rw [show h.nWrites + 1 + n = h.nWrites + (n + 1) from by omega]
            exact hok (n + 1) (by rw [writesOfCmds_init] at hn; omega))
        rw [heq5, bindEO_ok]
        have hs5' : h5.spiResp = h.spiResp := hs5
        have hn5' : h5.nWrites = h.nWrites + 29 := by
          have h29 : h5.nWrites = h.nWrites + 1 + writesOfCmds Jd79661.initSequence := hn5
          rw [writesOfCmds_init] at h29
          omega
        rw [command_err0 h5 4 [] e (by rw [hs5', hn5']; exact herr)]
        rw [bindEO_err]
        simp only [Option.map_some', Option.some.injEq, Prod.mk.injEq]
        refine ⟨trivial, ?_⟩
        show h5.nWrites + 1 = h.nWrites + 29 + 1
        rw [hn5']
  · -- update_frames
    intro hk8001
    simp only [Jd79661.update_frames, emit]
    by_cases hk0 : k = 0
    · subst hk0
      rw [command_err0 h 16 [] e (by simpa using herr)]
      rw [bindE_err]
    · rw [show Jd79661.command h 16 [] =
          (⟨h.spiResp, h.busyResp, h.nWrites + 1, h.nPolls,
            Ev.cs true :: Ev.write [16] :: Ev.cs false :: Ev.dc false :: h.trace⟩,
            Except.ok ()) from
        command_ok_nil h 16 (by simpa using hok 0 (by omega))]
      rw [bindE_ok]
      simp only [emit]
      obtain ⟨h2, heq, hn⟩ := writeFrame_err (frameBytes d)
        (⟨h.spiResp, h.busyResp, h.nWrites + 1, h.nPolls,
          Ev.cs false :: Ev.dc true :: Ev.cs true :: Ev.write [16] :: Ev.cs false ::
            Ev.dc false :: h.trace⟩ : Harness E)
        (k - 1) e
        (fun n hn => by
          show h.spiResp (h.nWrites + 1 + n) = Except.ok ()
          rw [show h.nWrites + 1 + n = h.nWrites + (n + 1) from by omega]
          exact hok (n + 1) (by omega))
        (by
          show h.spiResp (h.nWrites + 1 + (k - 1)) = Except.error e
          rw [show h.nWrites + 1 + (k - 1) = h.nWrites + k from by omega]
          exact herr)
        (by rw [frameBytes_length]; omega)
      rw [heq, bindE_err]
      have hn' : h2.nWrites = h.nWrites + 1 + (k - 1) + 1 := hn
      simp only [Prod.mk.injEq]
      exact ⟨trivial, by rw [hn']; omega⟩
  · -- display_frame
    intro hk0
    subst hk0
    simp only [Jd79661.display_frame]
    rw [command_err0 h 18 [] e (by simpa using herr)]
    rw [bindEO_err]
    simp

/-- C8 witness: the theorem applied to a mock whose 4th SPI write (index 3)
fails with error `7`, at fuel 1. -/
theorem spec_C8_witness :
    (Jd79661.new
      (⟨fun n => if n = 3 then Except.error 7 else Except.ok (),
        fun _ => Except.ok false, 0, 0, []⟩ : Harness Nat) 1).map
      (fun p => (p.2, p.1.nWrites)) = some (Except.error 7, 4) := by
  have h := spec_C8 Nat
    (⟨fun n => if n = 3 then Except.error 7 else Except.ok (),
      fun _ => Except.ok false, 0, 0, []⟩ : Harness Nat)
    DisplayBuffer.new 7 3 1
    (fun _ => rfl) (fun n hn => by interval_cases n <;> rfl) rfl (by decide)
  exact h.1 (by decide)

/-- C3: against a harness whose SPI writes all succeed and whose busy line
immediately reads not-busy, `new` succeeds and the chronological trace parses
into exactly the command sequence
`[0x01, 0x4D, 0x00, 0x01, 0x03, 0x06, 0x50, 0x60, 0x61, 0xE7, 0xE3, 0xB4,
0xB5, 0xE9, 0x30, 0x04]` in that order, each opcode written as a single byte
with DC low and carrying exactly its fixed literal payload, with `0x01`
(SWRESET) and `0x04` (power on) carrying no payload. -/
theorem spec_C3 :
    (Jd79661.new mockOk 1).map
        (fun p => (commandsOf p.1.trace.reverse, p.2)) =
      some ([(0x01, []), (0x4D, [0x78]), (0x00, [0x8F, 0x29]), (0x01, [0x07, 0x00]),
        (0x03, [0x10, 0x54, 0x44]), (0x06, [0x05, 0x00, 0x3F, 0x0A, 0x25, 0x12, 0x1A]),
        (0x50, [0x37]), (0x60, [0x02, 0x02, 0x02]), (0x61, [0x00, 0x80, 0x00, 0xFA]),
        (0xE7, [0x1C]), (0xE3, [0x22]), (0xB4, [0xD0]), (0xB5, [0x03]), (0xE9, [0x01]),
        (0x30, [0x08]), (0x04, [])], Except.ok ()) ∧
      (Jd79661.new mockOk 1).map
        (fun p => (commandsOf p.1.trace.reverse).map Prod.fst) =
      some [0x01, 0x4D, 0x00, 0x01, 0x03, 0x06, 0x50, 0x60, 0x61, 0xE7, 0xE3, 0xB4,
        0xB5, 0xE9, 0x30, 0x04] :=
  ⟨rfl, rfl⟩
